import Mathlib

/-!
Verification of the vehicle-reminder bot's core logic against its
natural-language specification.

The Python sources are shallowly embedded:

* `datetime.date` values become `PDate` (year/month/day naturals); CPython
  compares dates componentwise lexicographically and `date.min = 0001-01-01`.
* `datetime.datetime` timestamps are only ever compared with `<` and tested
  for `None`, so they are embedded as `Option Nat` along any order-isomorphism
  (e.g. microseconds since the epoch).
* Python `dict` is embedded as an insertion-ordered association list:
  updating an existing key keeps its position, a fresh key is appended,
  iteration follows the list order.  This matches CPython dict semantics.
* fallible Python code (attribute lookups that raise) returns `Except`.
-/

namespace WarmyBot

/-- Model of `datetime.date`: a year/month/day triple. -/
structure PDate where
  year : Nat
  month : Nat
  day : Nat
deriving DecidableEq, Repr

/-- `datetime.date.min`, i.e. 0001-01-01. -/
def dateMin : PDate := ⟨1, 1, 1⟩

/-- CPython compares `date` values lexicographically on (year, month, day). -/
def dateLtB (a b : PDate) : Bool :=
  decide (a.year < b.year) ||
    (decide (a.year = b.year) &&
      (decide (a.month < b.month) ||
        (decide (a.month = b.month) && decide (a.day < b.day))))

/-- Insertion-ordered dictionary lookup (`d.get(k)` / `d[k]`). -/
def dictGet {κ ν : Type} [DecidableEq κ] (k : κ) : List (κ × ν) → Option ν
  | [] => none
  | (k', v) :: rest => if k' = k then some v else dictGet k rest

/-- Insertion-ordered dictionary write `d[k] = v`: an existing key keeps its
position, a fresh key is appended at the end (CPython dict semantics). -/
def dictSet {κ ν : Type} [DecidableEq κ] (k : κ) (v : ν) :
    List (κ × ν) → List (κ × ν)
  | [] => [(k, v)]
  | (k', v') :: rest =>
      if k' = k then (k, v) :: rest else (k', v') :: dictSet k v rest

/-- The keys of a dictionary, in iteration order. -/
def dictKeys {κ ν : Type} (d : List (κ × ν)) : List κ := d.map Prod.fst

/-- A raw observation tuple `(plate, event_type, expiry, timestamp)` as fed to
`latest_by_plate_event` (data_model.py line 37). -/
abbrev Obs := String × String × Option PDate × Option Nat

/-- Winner state per key: the `(expiry, ts)` pair stored in `buckets`. -/
abbrev Winner := Option PDate × Option Nat

/-- Key of the reconciliation dictionary: `(plate, event_type)`. -/
abbrev BKey := String × String

def obsKey (r : Obs) : BKey := (r.1, r.2.1)

def obsWinner (r : Obs) : Winner := (r.2.2.1, r.2.2.2)

/-- `data_model.py` line 49, right conjunct:
`ts and ((prev_ts is None) or ts > prev_ts)`.
A `datetime` object is always truthy, so `ts and …` is falsy exactly when
`ts` is `None`. -/
def tsNewer (ts prev_ts : Option Nat) : Bool :=
  match ts with
  | none => false
  | some t =>
    match prev_ts with
    | none => true
    | some pt => decide (pt < t)

/-- `expiry or dt.date.min` (a `date` object is always truthy, so `or`
substitutes `date.min` exactly for `None`). -/
def orDateMin (e : Option PDate) : PDate := e.getD dateMin

/-- One iteration of the loop of `latest_by_plate_event`
(data_model.py lines 39-50). -/
def bucketStep (buckets : List (BKey × Winner)) (r : Obs) : List (BKey × Winner) :=
  match r with
  | (plate, event_type, expiry, ts) =>
    let k : BKey := (plate, event_type)
    match dictGet k buckets with
    | none => dictSet k (expiry, ts) buckets
    | some (prev_expiry, prev_ts) =>
      if dateLtB (orDateMin prev_expiry) (orDateMin expiry) then
        dictSet k (expiry, ts) buckets
      else if expiry = prev_expiry ∧ tsNewer ts prev_ts then
        dictSet k (expiry, ts) buckets
      else buckets

/-- `data_model.py` lines 25-29: the `DeadlineRecord` dataclass.  Its only
fields are `plate`, `event_type` and `expiry_date`. -/
structure DeadlineRecord where
  plate : String
  event_type : String
  expiry_date : Option PDate
deriving DecidableEq, Repr

/-- The `DeadlineRecord` built from one bucket entry
(data_model.py lines 52-54). -/
def bucketRec (kv : BKey × Winner) : DeadlineRecord :=
  { plate := kv.1.1, event_type := kv.1.2, expiry_date := kv.2.1 }

/-- `data_model.py` lines 37-55: reconcile raw observations down to one record
per `(plate, event_type)` key. -/
def latest_by_plate_event (records : List Obs) : List DeadlineRecord :=
  let buckets := records.foldl bucketStep []
  buckets.map bucketRec

def recKey (r : DeadlineRecord) : BKey := (r.plate, r.event_type)

/-! ### The reconciliation rule as the specification words it (spec §4.2)

`specStep` follows the numbered rules of spec §4.2 for one new observation
against the current winner of its key: rule 2 (strictly greater expiry under
the minimum-date substitution), rule 3 (equal expiry, tie-break by a present
and strictly newer `observed_at` over an absent or older one), rule 4 (keep
the current winner). -/

/-- Spec §4.2 rule 3 tie-break: the new observation's `observed_at` must be
present, and the winner's must be absent or strictly older. -/
def specTieBreak (new_ts winner_ts : Option Nat) : Bool :=
  match new_ts, winner_ts with
  | some t, some pt => decide (pt < t)
  | some _, none => true
  | none, _ => false

/-- Spec §4.2 rules 2-4 for one step of the per-key fold. -/
def specStep (w n : Winner) : Winner :=
  if dateLtB (orDateMin w.1) (orDateMin n.1) then n
  else if n.1 = w.1 ∧ specTieBreak n.2 w.2 then n
  else w

/-- Per-key fold of the spec's rules over a sequence of observations of one
key; `none` when the key was never observed. -/
def specAcc (acc : Option Winner) (r : Obs) : Option Winner :=
  some (match acc with
        | none => obsWinner r
        | some w => specStep w (obsWinner r))

def specWinner (l : List Obs) : Option Winner := l.foldl specAcc none

/-- Maximum of two dates under the code's strict comparison. -/
def dmax (a b : PDate) : PDate := if dateLtB a b then b else a

/-- Running maximum over an optional accumulator (`none` = nothing seen). -/
def omax (o : Option PDate) (x : PDate) : Option PDate :=
  some (match o with
        | none => x
        | some m => dmax m x)

/-- The winner's expiry under the minimum-date substitution of spec §4.2
rule 1 (absent expiry compared as `date.min`). -/
def substVal (w : Winner) : PDate := orDateMin w.1

/-- The substituted expiry of the winner stored for key `k` after
reconciling `records`. -/
def keySubstExpiry (records : List Obs) (k : BKey) : Option PDate :=
  (dictGet k (records.foldl bucketStep [])).map substVal

/-! ### Calendar arithmetic (CPython `datetime` internals)

`date - date` in CPython subtracts proleptic Gregorian ordinals
(`_ymd2ord`).  The helpers below are `datetime`'s `_is_leap`,
`_days_before_month` and `_days_before_year`. -/

def isLeap (y : Nat) : Bool :=
  decide (y % 4 = 0) && (decide (y % 100 ≠ 0) || decide (y % 400 = 0))

def daysBeforeMonthTable : List Nat :=
  [0, 31, 59, 90, 120, 151, 181, 212, 243, 273, 304, 334]

def daysBeforeMonth (y m : Nat) : Nat :=
  daysBeforeMonthTable.getD (m - 1) 0 + (if 2 < m ∧ isLeap y then 1 else 0)

def daysBeforeYear (y : Nat) : Nat :=
  (y - 1) * 365 + (y - 1) / 4 + (y - 1) / 400 - (y - 1) / 100

/-- CPython `_ymd2ord`: 0001-01-01 has ordinal 1. -/
def toOrdinal (d : PDate) : Nat :=
  daysBeforeYear d.year + daysBeforeMonth d.year d.month + d.day

/-- `(a - b).days` for two `date` values. -/
def dateSubDays (a b : PDate) : Int := (toOrdinal a : Int) - (toOrdinal b : Int)

/-- `data_model.py` lines 58-71: bucket reconciled records into
`(upcoming, expired)`, keeping input order, skipping
`registration_certificate` rows and rows without an expiry date
(`if not r.expiry_date`: a `date` is always truthy, so this tests absence). -/
def compute_windows (today : PDate) :
    List DeadlineRecord → List DeadlineRecord × List DeadlineRecord
  | [] => ([], [])
  | r :: rest =>
    let uppast := compute_windows today rest
    if r.event_type = "registration_certificate" then uppast
    else
      match r.expiry_date with
      | none => uppast
      | some d =>
        let delta := dateSubDays d today
        if delta = 5 ∨ delta = 1 then (r :: uppast.1, uppast.2)
        else if delta < 0 then (uppast.1, r :: uppast.2)
        else uppast

/-- The guard deciding membership in the `upcoming` bucket. -/
def upcomingB (today : PDate) (r : DeadlineRecord) : Bool :=
  !decide (r.event_type = "registration_certificate") &&
    match r.expiry_date with
    | none => false
    | some d =>
        decide (dateSubDays d today = 5) || decide (dateSubDays d today = 1)

/-- The guard deciding membership in the `expired` bucket. -/
def expiredB (today : PDate) (r : DeadlineRecord) : Bool :=
  !decide (r.event_type = "registration_certificate") &&
    match r.expiry_date with
    | none => false
    | some d =>
        !(decide (dateSubDays d today = 5) || decide (dateSubDays d today = 1))
          && decide (dateSubDays d today < 0)

/-! ### Summary formatter (data_model.py lines 16-22 and 74-91) -/

/-- `data_model.py` lines 16-22: the `EVENT_LABEL_LT` lookup table. -/
def EVENT_LABEL_LT : List (String × String) :=
  [("lv_road_toll", "LV kelių mokestis"),
   ("lt_road_toll", "LT kelių mokestis"),
   ("inspection", "TA galiojimas"),
   ("insurance", "CA draudimas"),
   ("registration_certificate", "Registracijos liudijimas")]

/-- `EVENT_LABEL_LT.get(r.event_type, r.event_type)`. -/
def labelOf (e : String) : String := (dictGet e EVENT_LABEL_LT).getD e

/-- Decimal rendering padded with leading zeros to width `w`
(CPython renders `date.isoformat()` as `%04d-%02d-%02d`). -/
def padZeros (w n : Nat) : String :=
  let s := toString n
  String.mk (List.replicate (w - s.length) '0') ++ s

/-- `date.isoformat()`. -/
def isoformat (d : PDate) : String :=
  padZeros 4 d.year ++ "-" ++ padZeros 2 d.month ++ "-" ++ padZeros 2 d.day

/-- Python string `<`: lexicographic comparison of code-point sequences. -/
def charListLt : List Char → List Char → Bool
  | [], [] => false
  | [], _ :: _ => true
  | _ :: _, [] => false
  | a :: as, b :: bs => decide (a < b) || (decide (a = b) && charListLt as bs)

def pyStrLt (a b : String) : Bool := charListLt a.data b.data

/-- The Python sort key comparison for
`(x.expiry_date or date.min, x.plate, x.event_type)`: tuples compare
lexicographically, dates lexicographically on (year, month, day), strings by
code points.  `summarySortLe a b` decides key-of-`a` ≤ key-of-`b`. -/
def summarySortLe (a b : DeadlineRecord) : Bool :=
  dateLtB (orDateMin a.expiry_date) (orDateMin b.expiry_date) ||
    (decide (orDateMin a.expiry_date = orDateMin b.expiry_date) &&
      (pyStrLt a.plate b.plate ||
        (decide (a.plate = b.plate) &&
          (pyStrLt a.event_type b.event_type ||
            decide (a.event_type = b.event_type)))))

/-- CPython's `sorted` is a stable ascending sort by the key; any stable sort
under the same total preorder produces the same list, so it is embedded as a
stable insertion sort. -/
def summarySorted (l : List DeadlineRecord) : List DeadlineRecord :=
  List.insertionSort (fun a b => summarySortLe a b = true) l

/-- One line of the upcoming section (data_model.py line 81). -/
def entryLineUp (r : DeadlineRecord) : String :=
  r.plate ++ " — " ++ labelOf r.event_type ++ " — "
    ++ isoformat (orDateMin r.expiry_date)

/-- One line of the expired section (data_model.py line 88). -/
def entryLineEx (r : DeadlineRecord) : String :=
  r.plate ++ " — " ++ labelOf r.event_type ++ " — nebegalioja nuo "
    ++ isoformat (orDateMin r.expiry_date)

/-- `str.join`: empty for `[]`, the single element for `[x]`, otherwise
interleaves the separator. -/
def pyJoin (sep : String) : List String → String
  | [] => ""
  | [x] => x
  | x :: rest => x ++ sep ++ pyJoin sep rest

/-- The `lines` list built by `format_summary_lt`
(data_model.py lines 75-88): an upcoming section (header, sorted entries,
one trailing empty line) when `upcoming` is non-empty, then an expired
section (header, sorted entries) when `expired` is non-empty. -/
def summaryLines (upcoming expired : List DeadlineRecord) : List String :=
  (if upcoming.isEmpty then [] else
    "Artėjantys (5 d., 1 d.):" ::
      ((summarySorted upcoming).map entryLineUp ++ [""]))
  ++ (if expired.isEmpty then [] else
    "Nebegalioja:" :: (summarySorted expired).map entryLineEx)

/-- `data_model.py` lines 74-91. -/
def format_summary_lt (upcoming expired : List DeadlineRecord) : String :=
  let lines := summaryLines upcoming expired
  if lines.isEmpty then "Šiandien priminimų nėra." else pyJoin "\n" lines

/-! ### Date parsing (sheets_client.py lines 50-59)

`strptime(s, "%m/%d/%Y")` matches the anchored pattern
`\d{1,2}/\d{1,2}/\d\d\d\d` against the whole string (CPython `_strptime`
compiles `%m` and `%d` to `\d{1,2}` and `%Y` to four digits, and rejects
unconverted trailing data), then validates the fields through the `date`
constructor, raising `ValueError` on failure; `%y` uses two digits and maps
years ≤ 68 to 20xx, others to 19xx.  Digits are embedded as ASCII digits. -/

def charVal (c : Char) : Nat := c.toNat - '0'.toNat

/-- Parse `\d{1,2}` immediately followed by a literal `/` (greedy with
backtracking, as the compiled regex behaves); returns the numeric value and
the remainder after the slash. -/
def parseFieldSlash : List Char → Option (Nat × List Char)
  | a :: b :: c :: rest =>
    if a.isDigit ∧ b.isDigit ∧ c = '/' then
      some (charVal a * 10 + charVal b, rest)
    else if a.isDigit ∧ b = '/' then some (charVal a, c :: rest)
    else none
  | [a, b] => if a.isDigit ∧ b = '/' then some (charVal a, []) else none
  | _ => none

/-- Exactly four digits ending the string (`%Y` anchored at end). -/
def parseYear4 : List Char → Option Nat
  | [a, b, c, d] =>
    if a.isDigit ∧ b.isDigit ∧ c.isDigit ∧ d.isDigit then
      some (charVal a * 1000 + charVal b * 100 + charVal c * 10 + charVal d)
    else none
  | _ => none

/-- Exactly two digits ending the string (`%y` anchored at end). -/
def parseYear2 : List Char → Option Nat
  | [a, b] =>
    if a.isDigit ∧ b.isDigit then some (charVal a * 10 + charVal b) else none
  | _ => none

/-- Days in a month of a year (`datetime._days_in_month`). -/
def daysInMonth (y m : Nat) : Nat :=
  if m = 2 ∧ isLeap y then 29
  else [31, 28, 31, 30, 31, 30, 31, 31, 30, 31, 30, 31].getD (m - 1) 0

/-- The `date(y, m, d)` constructor's validation
(`datetime._check_date_fields`: `MINYEAR = 1`, `MAXYEAR = 9999`);
`none` models the `ValueError` that `strptime` lets escape and the caller
catches. -/
def mkValidDate (y m d : Nat) : Option PDate :=
  if 1 ≤ y ∧ y ≤ 9999 ∧ 1 ≤ m ∧ m ≤ 12 ∧ 1 ≤ d ∧ d ≤ daysInMonth y m then
    some ⟨y, m, d⟩
  else none

/-- `datetime.strptime(s, "%m/%d/%Y").date()`, `none` for `ValueError`. -/
def strptimeMDY4 (s : String) : Option PDate :=
  match parseFieldSlash s.data with
  | none => none
  | some (m, rest) =>
    match parseFieldSlash rest with
    | none => none
    | some (d, rest2) =>
      match parseYear4 rest2 with
      | none => none
      | some y => mkValidDate y m d

/-- `datetime.strptime(s, "%m/%d/%y").date()`, `none` for `ValueError`. -/
def strptimeMDY2 (s : String) : Option PDate :=
  match parseFieldSlash s.data with
  | none => none
  | some (m, rest) =>
    match parseFieldSlash rest with
    | none => none
    | some (d, rest2) =>
      match parseYear2 rest2 with
      | none => none
      | some yy =>
        mkValidDate (if yy ≤ 68 then 2000 + yy else 1900 + yy) m d

/-- `sheets_client.py` lines 50-59: `parse_mmddyyyy`.  Empty text is falsy
and returns `None` at once; otherwise the formats are tried in order inside
`try/except ValueError`, the first success returned, `None` after the loop. -/
def parse_mmddyyyy (date_text : String) : Option PDate :=
  if date_text = "" then none
  else
    match strptimeMDY4 date_text with
    | some d => some d
    | none =>
      match strptimeMDY2 date_text with
      | some d => some d
      | none => none

/-! ### JSON storage (json_storage.py) and the daily-reminder pipeline -/

/-- json_storage.py lines 120-125: one event dict of a stored vehicle. -/
structure VehicleEventJ where
  event_type : String
  expires : Option String
  doc_links : List String
  last_updated : String
deriving DecidableEq, Repr

/-- json_storage.py lines 107-113: one per-plate dict of
`self.data["vehicles"]`. -/
structure Vehicle where
  events : List VehicleEventJ
  excluded : Bool
  excluded_at : Option String
  excluded_by : Option String
  last_seen : String
deriving DecidableEq, Repr

/-- The persisted `self.data` structure (json_storage.py lines 47-50). -/
structure Storage where
  last_updated : Option String
  vehicles : List (String × Vehicle)
deriving DecidableEq, Repr

inductive PyErr where
  | attributeError
deriving DecidableEq, Repr

/-- json_storage.py lines 107-113: the fresh per-plate dict
(`excluded: False`, `last_seen: now`). -/
def vehicleInit (now : String) : Vehicle :=
  { events := [], excluded := false, excluded_at := none,
    excluded_by := none, last_seen := now }

/-- json_storage.py line 116 reads `record.timestamp`, but `DeadlineRecord`
(data_model.py lines 25-29) has only `plate`, `event_type` and
`expiry_date`; Python attribute lookup of a missing dataclass field raises
`AttributeError`. -/
def recordTimestampAttr (_r : DeadlineRecord) : Except PyErr Empty :=
  .error .attributeError

/-- One iteration of the build loop (json_storage.py lines 104-126): set up
the per-plate dict, then compute `key = (…, record.timestamp)` — which
raises before the event is ever appended. -/
def buildStep (now : String) (acc : List (String × Vehicle))
    (record : DeadlineRecord) : Except PyErr (List (String × Vehicle)) :=
  let acc' :=
    match dictGet record.plate acc with
    | none => dictSet record.plate (vehicleInit now) acc
    | some _ => acc
  match recordTimestampAttr record with
  | .error e => .error e
  | .ok t => (fun _ => t.elim) acc'

/-- One iteration of the merge loop (json_storage.py lines 129-137): copy
the three exclusion fields from the currently stored entry when the plate
already exists, then store the new per-plate dict. -/
def mergeStep (data : List (String × Vehicle)) (pv : String × Vehicle) :
    List (String × Vehicle) :=
  let vd :=
    match dictGet pv.1 data with
    | some ex =>
        { pv.2 with
          excluded := ex.excluded
          excluded_at := ex.excluded_at
          excluded_by := ex.excluded_by }
    | none => pv.2
  dictSet pv.1 vd data

/-- The merge loop over all newly built vehicles
(json_storage.py lines 129-137). -/
def mergeVehicles (existing new_vehicles : List (String × Vehicle)) :
    List (String × Vehicle) :=
  new_vehicles.foldl mergeStep existing

/-- The prune step (json_storage.py lines 139-148): drop a stored vehicle
iff its plate is absent from the plates of the latest sync and it is not
excluded. -/
def pruneVehicles (data : List (String × Vehicle))
    (current_plates : List String) : List (String × Vehicle) :=
  data.filter fun pv => current_plates.contains pv.1 || pv.2.excluded

/-- Projection of the enhanced 5-tuples onto the 4-tuples handed to
`latest_by_plate_event` (json_storage.py line 93). -/
def tuplesForLatest
    (vehicles_data : List (String × String × Option PDate × Option Nat × List String)) :
    List Obs :=
  vehicles_data.map fun v => (v.1, v.2.1, v.2.2.1, v.2.2.2.1)

/-- json_storage.py lines 77-151: `update_vehicle_data_enhanced`.  `.ok`
means the save step (line 151) was reached with the given state to persist;
`.error` means the exception escaped before any write. -/
def update_vehicle_data_enhanced (st : Storage) (now : String)
    (vehicles_data : List (String × String × Option PDate × Option Nat × List String)) :
    Except PyErr Storage :=
  let latest_records := latest_by_plate_event (tuplesForLatest vehicles_data)
  match latest_records.foldlM (buildStep now) ([] : List (String × Vehicle)) with
  | .error e => .error e
  | .ok new_vehicles =>
    let merged := mergeVehicles st.vehicles new_vehicles
    let pruned := pruneVehicles merged (dictKeys new_vehicles)
    .ok { last_updated := some now, vehicles := pruned }

/-- The list handed to the Window Classifier by `send_daily_reminders`
(main.py lines 32-49): it is reconciled directly from the normalized
spreadsheet tuples; the stored exclusion flags are never consulted on this
path. -/
def send_daily_classifier_input (tuples : List Obs) : List DeadlineRecord :=
  latest_by_plate_event tuples

/-- Concrete prior snapshot used to witness the merge frame property. -/
def c7ExistingVehicle : Vehicle :=
  ⟨[], true, some "2024-01-01T00:00:00", some "admin", "old"⟩

/-- Concrete freshly built snapshot used to witness the merge frame
property. -/
def c7NewVehicle : Vehicle :=
  ⟨[⟨"insurance", some "2024-06-10", [], "now"⟩], false, none, none, "now"⟩

/-- Concrete excluded snapshot demonstrating the exclusion claim. -/
def c3Vehicle : Vehicle :=
  ⟨[], true, some "2024-06-01T08:00:00", some "admin", "2024-06-01T08:00:00"⟩

/-- Concrete persisted state holding only the excluded plate `"AAA111"`. -/
def c3Storage : Storage :=
  ⟨some "2024-06-01T08:00:00", [("AAA111", c3Vehicle)]⟩

theorem dateLtB_iff (a b : PDate) :
    dateLtB a b = true ↔
      (a.year < b.year ∨ (a.year = b.year ∧
        (a.month < b.month ∨ (a.month = b.month ∧ a.day < b.day)))) := by
  simp [dateLtB]

theorem pdate_ext (a b : PDate) (hy : a.year = b.year) (hm : a.month = b.month)
    (hd : a.day = b.day) : a = b := by
  cases a; cases b; simp_all

theorem tsNewer_eq_specTieBreak (ts pts : Option Nat) :
    tsNewer ts pts = specTieBreak ts pts := by
  cases ts <;> cases pts <;> rfl

theorem dictGet_set_self {κ ν : Type} [DecidableEq κ] (k : κ) (v : ν)
    (l : List (κ × ν)) : dictGet k (dictSet k v l) = some v := by
  induction l with
  | nil => simp [dictGet, dictSet]
  | cons kv rest ih =>
    by_cases h : kv.1 = k
    · cases kv; simp_all [dictGet, dictSet]
    · cases kv; simp_all [dictGet, dictSet]

theorem dictGet_set_ne {κ ν : Type} [DecidableEq κ] (k k' : κ) (v : ν)
    (l : List (κ × ν)) (h : k' ≠ k) :
    dictGet k (dictSet k' v l) = dictGet k l := by
  induction l with
  | nil => simp [dictGet, dictSet, h]
  | cons kv rest ih =>
    by_cases hk : kv.1 = k'
    · cases kv; simp_all [dictGet, dictSet]
    · cases kv; simp_all [dictGet, dictSet]

/-- The key-`k` entry after one loop iteration: untouched unless the
observation is for key `k`, in which case it evolves by the spec's rule. -/
theorem dictGet_bucketStep (b : List (BKey × Winner)) (r : Obs) (k : BKey) :
    dictGet k (bucketStep b r) =
      if obsKey r = k then specAcc (dictGet k b) r else dictGet k b := by
  obtain ⟨plate, event, e, ts⟩ := r
  by_cases hk : ((plate, event) : BKey) = k
  · cases hb : dictGet ((plate, event) : BKey) b with
    | none =>
      simp only [bucketStep, hb, obsKey, hk, if_pos, specAcc, obsWinner]
      rw [← hk] at *
      simp [dictGet_set_self, hb]
    | some w =>
      obtain ⟨pe, pt⟩ := w
      simp only [bucketStep, hb, obsKey, hk, if_pos, specAcc, obsWinner,
        specStep, tsNewer_eq_specTieBreak]
      rw [← hk] at *
      simp only [hb]
      by_cases h1 : dateLtB (orDateMin pe) (orDateMin e) = true
      · simp [h1, dictGet_set_self]
      · by_cases h2 : e = pe ∧ specTieBreak ts pt = true
        · simp [h1, h2, dictGet_set_self]
        · simp [h1, h2, hb, tsNewer_eq_specTieBreak]
  · simp only [bucketStep, obsKey, hk, if_neg, ite_false]
    cases hb : dictGet ((plate, event) : BKey) b with
    | none => simp [dictGet_set_ne _ _ _ _ hk]
    | some w =>
      obtain ⟨pe, pt⟩ := w
      by_cases h1 : dateLtB (orDateMin pe) (orDateMin e) = true
      · simp [h1, dictGet_set_ne _ _ _ _ hk]
      · by_cases h2 : e = pe ∧ tsNewer ts pt = true
        · simp [h1, h2, dictGet_set_ne _ _ _ _ hk]
        · simp [h1, h2]

/-- Per-key decomposition of the whole fold: the bucket stored for key `k`
is the spec fold over just the observations of key `k`. -/
theorem dictGet_foldl_bucketStep (records : List Obs)
    (b : List (BKey × Winner)) (k : BKey) :
    dictGet k (records.foldl bucketStep b) =
      (records.filter fun r => decide (obsKey r = k)).foldl specAcc (dictGet k b) := by
  induction records generalizing b with
  | nil => rfl
  | cons r rs ih =>
    rw [List.foldl_cons, ih, List.filter_cons]
    by_cases h : obsKey r = k
    · simp [h, dictGet_bucketStep]
    · simp [h, dictGet_bucketStep]

/-- Looking a key up in the output list is looking it up in the buckets. -/
theorem find?_latest (records : List Obs) (k : BKey) :
    (latest_by_plate_event records).find? (fun r => decide (recKey r = k)) =
      (dictGet k (records.foldl bucketStep [])).map
        (fun w => { plate := k.1, event_type := k.2, expiry_date := w.1 }) := by
  unfold latest_by_plate_event
  generalize records.foldl bucketStep [] = buckets
  induction buckets with
  | nil => rfl
  | cons kv rest ih =>
    obtain ⟨⟨p, ev⟩, w⟩ := kv
    simp only [List.map_cons]
    by_cases h : ((p, ev) : BKey) = k
    · rw [← h]
      rw [List.find?_cons_of_pos _ (by simp [recKey, bucketRec])]
      simp [dictGet, bucketRec]
    · rw [List.find?_cons_of_neg _ (by simp [recKey, bucketRec, h])]
      simp only [dictGet, if_neg h]
      simpa using ih

/-- C1: for every input sequence and every `(entity_id, event_type)` key, the
record `latest_by_plate_event` produces for that key carries exactly the
winner of the spec's per-key fold: greatest expiry date with an absent expiry
compared as the minimum date, ties on (literally) equal expiry broken by a
present and strictly newer `observed_at` over an absent or older one, and
otherwise the current winner kept. -/
theorem reconcile_per_key_winner (records : List Obs) (k : BKey) :
    (latest_by_plate_event records).find? (fun r => decide (recKey r = k)) =
      (specWinner (records.filter fun r => decide (obsKey r = k))).map
        (fun w => { plate := k.1, event_type := k.2, expiry_date := w.1 }) := by
  rw [find?_latest, dictGet_foldl_bucketStep]; rfl

theorem dmax_comm (a b : PDate) : dmax a b = dmax b a := by
  simp only [dmax]
  split_ifs <;>
    first
      | rfl
      | (simp only [dateLtB_iff] at *
         exact pdate_ext _ _ (by omega) (by omega) (by omega))

theorem dmax_left_comm (a b c : PDate) :
    dmax (dmax a b) c = dmax (dmax a c) b := by
  simp only [dmax]
  split_ifs <;>
    first
      | rfl
      | (simp only [dateLtB_iff] at *
         exact pdate_ext _ _ (by omega) (by omega) (by omega))

theorem omax_left_comm (o : Option PDate) (x y : PDate) :
    omax (omax o x) y = omax (omax o y) x := by
  cases o with
  | none => simp only [omax]; rw [dmax_comm]
  | some m => simp only [omax]; rw [dmax_left_comm]

/-- A fold whose step is left-commutative is invariant under permutation of
the folded list. -/
theorem foldl_eq_of_perm {α β : Type} (f : β → α → β)
    (H : ∀ b x y, f (f b x) y = f (f b y) x) :
    ∀ {l₁ l₂ : List α}, l₁.Perm l₂ → ∀ b, l₁.foldl f b = l₂.foldl f b := by
  intro l₁ l₂ h
  induction h with
  | nil => intro b; rfl
  | cons x _ ih => intro b; simp only [List.foldl_cons]; exact ih _
  | swap x y l => intro b; simp only [List.foldl_cons]; rw [H]
  | trans _ _ ih₁ ih₂ => intro b; rw [ih₁, ih₂]

theorem substVal_specStep (w n : Winner) :
    substVal (specStep w n) = dmax (substVal w) (substVal n) := by
  by_cases h1 : dateLtB (orDateMin w.1) (orDateMin n.1) = true
  · simp [specStep, dmax, substVal, h1]
  · by_cases h2 : n.1 = w.1 ∧ specTieBreak n.2 w.2 = true
    · simp [specStep, dmax, substVal, h1, h2, h2.1]
    · simp [specStep, dmax, substVal, h1, h2]

theorem specAcc_subst (l : List Obs) (acc : Option Winner) :
    (l.foldl specAcc acc).map substVal =
      l.foldl (fun o r => omax o (substVal (obsWinner r))) (acc.map substVal) := by
  induction l generalizing acc with
  | nil => rfl
  | cons r rs ih =>
    simp only [List.foldl_cons]
    rw [ih]
    congr 1
    cases acc with
    | none => rfl
    | some w =>
      show some (substVal (specStep w (obsWinner r))) =
        omax (some (substVal w)) (substVal (obsWinner r))
      simp only [omax, substVal_specStep]

theorem keySubstExpiry_eq_foldl (records : List Obs) (k : BKey) :
    keySubstExpiry records k =
      (records.filter fun r => decide (obsKey r = k)).foldl
        (fun o r => omax o (substVal (obsWinner r))) none := by
  unfold keySubstExpiry
  rw [dictGet_foldl_bucketStep]
  simpa using specAcc_subst (records.filter fun r => decide (obsKey r = k)) none

/-- C2 counterexample: the claim fails as stated.  For the key
`("P", "insurance")`, the input holding an absent expiry first and the
concrete minimum date `0001-01-01` second reconciles to an absent winning
expiry, while the swapped permutation reconciles to `0001-01-01`: the two
winning `expiry_date` values differ. -/
theorem reconcile_perm_counterexample :
    List.Perm
        ([("P", "insurance", none, none),
          ("P", "insurance", some dateMin, none)] : List Obs)
        ([("P", "insurance", some dateMin, none),
          ("P", "insurance", none, none)] : List Obs)
      ∧ (latest_by_plate_event
            [("P", "insurance", none, none),
             ("P", "insurance", some dateMin, none)]).find?
            (fun r => decide (recKey r = ("P", "insurance")))
        ≠ (latest_by_plate_event
            [("P", "insurance", some dateMin, none),
             ("P", "insurance", none, none)]).find?
            (fun r => decide (recKey r = ("P", "insurance"))) := by
  constructor
  · exact List.Perm.swap _ _ _
  · decide

/-- C2 (amended): for every permutation of the observation list and every
key, reconciliation yields the same winning expiry date *after substituting
the minimum date `0001-01-01` for an absent expiry* — the two can differ only
between a literal absence and the minimum date itself, which compare equal
under the documented rule-1 substitution. -/
theorem reconcile_perm_subst_expiry (l₁ l₂ : List Obs) (h : l₁.Perm l₂)
    (k : BKey) : keySubstExpiry l₁ k = keySubstExpiry l₂ k := by
  rw [keySubstExpiry_eq_foldl, keySubstExpiry_eq_foldl]
  exact foldl_eq_of_perm (fun o r => omax o (substVal (obsWinner r)))
    (fun o x y => omax_left_comm o (substVal (obsWinner x)) (substVal (obsWinner y)))
    (h.filter _) none

/-- Witness for the amended C2 theorem at a concrete permutation pair. -/
theorem reconcile_perm_subst_expiry_witness :
    List.Perm
        ([("P", "insurance", none, none),
          ("P", "insurance", some dateMin, none)] : List Obs)
        ([("P", "insurance", some dateMin, none),
          ("P", "insurance", none, none)] : List Obs)
      ∧ keySubstExpiry
            [("P", "insurance", none, none),
             ("P", "insurance", some dateMin, none)] ("P", "insurance")
          = keySubstExpiry
            [("P", "insurance", some dateMin, none),
             ("P", "insurance", none, none)] ("P", "insurance") :=
  ⟨List.Perm.swap _ _ _,
    reconcile_perm_subst_expiry _ _ (List.Perm.swap _ _ _) ("P", "insurance")⟩

theorem dictGet_eq_none_iff {κ ν : Type} [DecidableEq κ] (k : κ)
    (l : List (κ × ν)) : dictGet k l = none ↔ k ∉ dictKeys l := by
  induction l with
  | nil => simp [dictGet, dictKeys]
  | cons kv rest ih =>
    obtain ⟨k', v⟩ := kv
    by_cases h : k' = k
    · subst h; simp [dictGet, dictKeys]
    · have h2 : ¬k = k' := fun he => h he.symm
      rw [show dictGet k ((k', v) :: rest) = dictGet k rest from by
        simp [dictGet, h]]
      rw [ih]
      simp [dictKeys, h2]

theorem dictKeys_dictSet {κ ν : Type} [DecidableEq κ] (k : κ) (v : ν)
    (l : List (κ × ν)) :
    dictKeys (dictSet k v l) =
      if k ∈ dictKeys l then dictKeys l else dictKeys l ++ [k] := by
  induction l with
  | nil => simp [dictSet, dictKeys]
  | cons kv rest ih =>
    obtain ⟨k', v'⟩ := kv
    by_cases h : k' = k
    · subst h; simp [dictSet, dictKeys]
    · have hne : ¬k = k' := fun he => h he.symm
      by_cases hm : k ∈ dictKeys rest <;>
        simp_all [dictSet, dictKeys, List.cons_append]

theorem nodup_dictKeys_bucketStep (b : List (BKey × Winner)) (r : Obs)
    (h : (dictKeys b).Nodup) : (dictKeys (bucketStep b r)).Nodup := by
  obtain ⟨plate, event, e, ts⟩ := r
  cases hb : dictGet ((plate, event) : BKey) b with
  | none =>
    have hmem : ((plate, event) : BKey) ∉ dictKeys b :=
      (dictGet_eq_none_iff _ _).mp hb
    simp only [bucketStep, hb]
    rw [dictKeys_dictSet, if_neg hmem]
    simp [List.nodup_append, h, hmem]
  | some w =>
    obtain ⟨pe, pt⟩ := w
    have hmem : ((plate, event) : BKey) ∈ dictKeys b := by
      by_contra hc
      rw [← dictGet_eq_none_iff ((plate, event) : BKey) b] at hc
      simp [hb] at hc
    simp only [bucketStep, hb]
    by_cases h1 : dateLtB (orDateMin pe) (orDateMin e) = true
    · rw [if_pos h1, dictKeys_dictSet, if_pos hmem]; exact h
    · by_cases h2 : e = pe ∧ tsNewer ts pt = true
      · rw [if_neg h1, if_pos h2, dictKeys_dictSet, if_pos hmem]; exact h
      · rw [if_neg h1, if_neg h2]; exact h

theorem nodup_dictKeys_buckets (records : List Obs) :
    (dictKeys (records.foldl bucketStep [])).Nodup := by
  have aux : ∀ (l : List Obs) (b : List (BKey × Winner)),
      (dictKeys b).Nodup → (dictKeys (l.foldl bucketStep b)).Nodup := by
    intro l
    induction l with
    | nil => intro b hb; exact hb
    | cons r rs ih =>
      intro b hb
      exact ih _ (nodup_dictKeys_bucketStep b r hb)
  exact aux records [] (by simp [dictKeys])

theorem foldl_specAcc_isSome (l : List Obs) (w : Winner) :
    (l.foldl specAcc (some w)).isSome := by
  induction l generalizing w with
  | nil => rfl
  | cons r rs ih => simpa [specAcc] using ih _

theorem specWinner_isSome_iff (l : List Obs) :
    (specWinner l).isSome ↔ l ≠ [] := by
  cases l with
  | nil => simp [specWinner]
  | cons r rs =>
    simp only [specWinner, List.foldl_cons, ne_eq, List.cons_ne_nil,
      not_false_iff, iff_true]
    have : specAcc none r = some (obsWinner r) := rfl
    rw [this]
    exact foldl_specAcc_isSome rs _

/-- C8: reconciliation produces at most one `DeadlineRecord` per
`(entity_id, event_type)` pair, and the set of keys present in the output is
exactly the set of distinct keys occurring in the input. -/
theorem reconcile_unique_keys (records : List Obs) :
    (latest_by_plate_event records).Pairwise (fun r₁ r₂ => recKey r₁ ≠ recKey r₂)
      ∧ ∀ k : BKey,
          (∃ r ∈ latest_by_plate_event records, recKey r = k)
            ↔ (∃ o ∈ records, obsKey o = k) := by
  constructor
  · have h := nodup_dictKeys_buckets records
    have h' : (records.foldl bucketStep []).Pairwise
        (fun kv₁ kv₂ : BKey × Winner => kv₁.1 ≠ kv₂.1) :=
      List.pairwise_map.mp h
    unfold latest_by_plate_event
    rw [List.pairwise_map]
    refine h'.imp ?_
    intro kv₁ kv₂ hne heq
    apply hne
    have e₁ : recKey (bucketRec kv₁) = kv₁.1 := by
      obtain ⟨⟨p, ev⟩, w⟩ := kv₁; rfl
    have e₂ : recKey (bucketRec kv₂) = kv₂.1 := by
      obtain ⟨⟨p, ev⟩, w⟩ := kv₂; rfl
    rw [← e₁, ← e₂, heq]
  · intro k
    have e1 : (∃ r ∈ latest_by_plate_event records, recKey r = k)
        ↔ ((latest_by_plate_event records).find?
            fun r => decide (recKey r = k)).isSome := by
      rw [List.find?_isSome]
      simp
    rw [e1, reconcile_per_key_winner]
    rw [Option.isSome_map', specWinner_isSome_iff]
    rw [ne_eq, List.filter_eq_nil_iff]
    simp

theorem compute_windows_eq_filter (today : PDate)
    (records : List DeadlineRecord) :
    compute_windows today records =
      (records.filter (upcomingB today), records.filter (expiredB today)) := by
  induction records with
  | nil => rfl
  | cons r rest ih =>
    rw [List.filter_cons, List.filter_cons]
    by_cases he : r.event_type = "registration_certificate"
    · simp [compute_windows, ih, he, upcomingB, expiredB]
    · cases hd : r.expiry_date with
      | none => simp [compute_windows, ih, he, hd, upcomingB, expiredB]
      | some d =>
        by_cases h5 : dateSubDays d today = 5
        · simp [compute_windows, ih, he, hd, upcomingB, expiredB, h5]
        · by_cases h1 : dateSubDays d today = 1
          · simp [compute_windows, ih, he, hd, upcomingB, expiredB, h5, h1]
          · by_cases hn : dateSubDays d today < 0
            · simp [compute_windows, ih, he, hd, upcomingB, expiredB, h5, h1, hn]
            · simp [compute_windows, ih, he, hd, upcomingB, expiredB, h5, h1, hn]

theorem upcomingB_iff (today : PDate) (r : DeadlineRecord) :
    upcomingB today r = true ↔
      r.event_type ≠ "registration_certificate" ∧
        ∃ d, r.expiry_date = some d ∧
          (dateSubDays d today = 5 ∨ dateSubDays d today = 1) := by
  cases hd : r.expiry_date <;> simp [upcomingB, hd]

theorem expiredB_iff (today : PDate) (r : DeadlineRecord) :
    expiredB today r = true ↔
      r.event_type ≠ "registration_certificate" ∧
        ∃ d, r.expiry_date = some d ∧ dateSubDays d today < 0 := by
  cases hd : r.expiry_date with
  | none => simp [expiredB, hd]
  | some d =>
    simp only [expiredB, hd, Bool.and_eq_true, Bool.not_eq_true',
      decide_eq_false_iff_not, Bool.or_eq_true, decide_eq_true_eq,
      Option.some.injEq, ne_eq]
    constructor
    · rintro ⟨hne, hrest⟩
      exact ⟨hne, d, rfl, by omega⟩
    · rintro ⟨hne, d', hd', hlt⟩
      subst hd'
      refine ⟨hne, ?_, by omega⟩
      simp only [Bool.not_eq_true, Bool.or_eq_false_iff, decide_eq_false_iff_not]
      omega

/-- C5: `compute_windows` puts a record into the `upcoming` bucket iff its
expiry minus `today` is exactly 5 or 1 days, into the `expired` bucket iff
that difference is negative, and into neither bucket otherwise; records of
the `registration_certificate` event type and records without an expiry date
are excluded from both buckets. -/
theorem compute_windows_membership (today : PDate)
    (records : List DeadlineRecord) (r : DeadlineRecord) :
    (r ∈ (compute_windows today records).1 ↔
        r ∈ records ∧ r.event_type ≠ "registration_certificate" ∧
          ∃ d, r.expiry_date = some d ∧
            (dateSubDays d today = 5 ∨ dateSubDays d today = 1))
      ∧ (r ∈ (compute_windows today records).2 ↔
        r ∈ records ∧ r.event_type ≠ "registration_certificate" ∧
          ∃ d, r.expiry_date = some d ∧ dateSubDays d today < 0) := by
  rw [compute_windows_eq_filter]
  constructor
  · rw [List.mem_filter, upcomingB_iff]
  · rw [List.mem_filter, expiredB_iff]

theorem charListLt_trans :
    ∀ {as bs cs : List Char}, charListLt as bs = true →
      charListLt bs cs = true → charListLt as cs = true := by
  intro as
  induction as with
  | nil =>
    intro bs cs hab hbc
    cases bs <;> cases cs <;> simp_all [charListLt]
  | cons a as ih =>
    intro bs cs hab hbc
    cases bs with
    | nil => simp [charListLt] at hab
    | cons b bs' =>
      cases cs with
      | nil => simp [charListLt] at hbc
      | cons c cs' =>
        simp only [charListLt, Bool.or_eq_true, Bool.and_eq_true,
          decide_eq_true_eq] at hab hbc ⊢
        rcases hab with h1 | ⟨he1, hr1⟩
        · rcases hbc with h2 | ⟨he2, hr2⟩
          · exact Or.inl (lt_trans h1 h2)
          · exact Or.inl (he2 ▸ h1)
        · rcases hbc with h2 | ⟨he2, hr2⟩
          · exact Or.inl (by rw [he1]; exact h2)
          · exact Or.inr ⟨he1.trans he2, ih hr1 hr2⟩

theorem charListLt_connex :
    ∀ {as bs : List Char}, charListLt as bs = false →
      charListLt bs as = false → as = bs := by
  intro as
  induction as with
  | nil =>
    intro bs hab _
    cases bs with
    | nil => rfl
    | cons b bs' => simp [charListLt] at hab
  | cons a as ih =>
    intro bs hab hba
    cases bs with
    | nil => simp [charListLt] at hba
    | cons b bs' =>
      simp only [charListLt, Bool.or_eq_false_iff, Bool.and_eq_false_iff,
        decide_eq_false_iff_not] at hab hba
      obtain ⟨hnlt1, hr1⟩ := hab
      obtain ⟨hnlt2, hr2⟩ := hba
      have heq : a = b := le_antisymm (not_lt.mp hnlt2) (not_lt.mp hnlt1)
      subst heq
      have hr1' : charListLt as bs' = false := by
        rcases hr1 with h | h
        · exact absurd rfl h
        · exact h
      have hr2' : charListLt bs' as = false := by
        rcases hr2 with h | h
        · exact absurd rfl h
        · exact h
      rw [ih hr1' hr2']

theorem pyStrLt_trans {a b c : String} (h1 : pyStrLt a b = true)
    (h2 : pyStrLt b c = true) : pyStrLt a c = true :=
  charListLt_trans h1 h2

theorem pyStrLt_connex {a b : String} (h1 : pyStrLt a b = false)
    (h2 : pyStrLt b a = false) : a = b :=
  String.ext (charListLt_connex h1 h2)

theorem dateLtB_trans {a b c : PDate} (h1 : dateLtB a b = true)
    (h2 : dateLtB b c = true) : dateLtB a c = true := by
  simp only [dateLtB_iff] at h1 h2 ⊢
  omega

theorem dateLtB_connex {a b : PDate} (h1 : dateLtB a b = false)
    (h2 : dateLtB b a = false) : a = b := by
  have h1' : ¬dateLtB a b = true := by simp [h1]
  have h2' : ¬dateLtB b a = true := by simp [h2]
  rw [dateLtB_iff] at h1' h2'
  exact pdate_ext _ _ (by omega) (by omega) (by omega)

theorem summarySortLe_trans (a b c : DeadlineRecord)
    (hab : summarySortLe a b = true) (hbc : summarySortLe b c = true) :
    summarySortLe a c = true := by
  simp only [summarySortLe, Bool.or_eq_true, Bool.and_eq_true,
    decide_eq_true_eq] at hab hbc ⊢
  rcases hab with hd1 | ⟨hde1, hs1⟩
  · rcases hbc with hd2 | ⟨hde2, _⟩
    · exact Or.inl (dateLtB_trans hd1 hd2)
    · exact Or.inl (hde2 ▸ hd1)
  · rcases hbc with hd2 | ⟨hde2, hs2⟩
    · exact Or.inl (by rw [hde1]; exact hd2)
    · refine Or.inr ⟨hde1.trans hde2, ?_⟩
      rcases hs1 with hp1 | ⟨hpe1, he1⟩
      · rcases hs2 with hp2 | ⟨hpe2, _⟩
        · exact Or.inl (pyStrLt_trans hp1 hp2)
        · exact Or.inl (hpe2 ▸ hp1)
      · rcases hs2 with hp2 | ⟨hpe2, he2⟩
        · exact Or.inl (by rw [hpe1]; exact hp2)
        · refine Or.inr ⟨hpe1.trans hpe2, ?_⟩
          rcases he1 with hq1 | hq1
          · rcases he2 with hq2 | hq2
            · exact Or.inl (pyStrLt_trans hq1 hq2)
            · exact Or.inl (hq2 ▸ hq1)
          · rcases he2 with hq2 | hq2
            · exact Or.inl (by rw [hq1]; exact hq2)
            · exact Or.inr (hq1.trans hq2)

theorem summarySortLe_total (a b : DeadlineRecord) :
    summarySortLe a b = true ∨ summarySortLe b a = true := by
  simp only [summarySortLe, Bool.or_eq_true, Bool.and_eq_true,
    decide_eq_true_eq]
  by_cases hd : dateLtB (orDateMin a.expiry_date) (orDateMin b.expiry_date) = true
  · exact Or.inl (Or.inl hd)
  · by_cases hd2 : dateLtB (orDateMin b.expiry_date) (orDateMin a.expiry_date) = true
    · exact Or.inr (Or.inl hd2)
    · have hde : orDateMin a.expiry_date = orDateMin b.expiry_date :=
        dateLtB_connex (Bool.not_eq_true _ ▸ hd) (Bool.not_eq_true _ ▸ hd2)
      by_cases hp : pyStrLt a.plate b.plate = true
      · exact Or.inl (Or.inr ⟨hde, Or.inl hp⟩)
      · by_cases hp2 : pyStrLt b.plate a.plate = true
        · exact Or.inr (Or.inr ⟨hde.symm, Or.inl hp2⟩)
        · have hpe : a.plate = b.plate :=
            pyStrLt_connex (Bool.not_eq_true _ ▸ hp) (Bool.not_eq_true _ ▸ hp2)
          by_cases he : pyStrLt a.event_type b.event_type = true
          · exact Or.inl (Or.inr ⟨hde, Or.inr ⟨hpe, Or.inl he⟩⟩)
          · by_cases he2 : pyStrLt b.event_type a.event_type = true
            · exact Or.inr (Or.inr ⟨hde.symm, Or.inr ⟨hpe.symm, Or.inl he2⟩⟩)
            · have hee : a.event_type = b.event_type :=
                pyStrLt_connex (Bool.not_eq_true _ ▸ he) (Bool.not_eq_true _ ▸ he2)
              exact Or.inl (Or.inr ⟨hde, Or.inr ⟨hpe, Or.inr hee⟩⟩)

theorem dash_mem_entryLineUp (r : DeadlineRecord) :
    '—' ∈ (entryLineUp r).data := by
  unfold entryLineUp
  rw [String.data_append]
  apply List.mem_append.mpr
  left
  rw [String.data_append]
  apply List.mem_append.mpr
  right
  decide

theorem dash_mem_entryLineEx (r : DeadlineRecord) :
    '—' ∈ (entryLineEx r).data := by
  unfold entryLineEx
  rw [String.data_append]
  apply List.mem_append.mpr
  left
  rw [String.data_append]
  apply List.mem_append.mpr
  right
  decide

theorem str_not_mem_map_entryUp (s : String) (hs : '—' ∉ s.data)
    (l : List DeadlineRecord) : s ∉ l.map entryLineUp := by
  intro hmem
  obtain ⟨r, _, hr⟩ := List.mem_map.mp hmem
  exact hs (hr ▸ dash_mem_entryLineUp r)

theorem str_not_mem_map_entryEx (s : String) (hs : '—' ∉ s.data)
    (l : List DeadlineRecord) : s ∉ l.map entryLineEx := by
  intro hmem
  obtain ⟨r, _, hr⟩ := List.mem_map.mp hmem
  exact hs (hr ▸ dash_mem_entryLineEx r)

/-- C6: `format_summary_lt` on two empty buckets returns exactly the fixed
no-reminders sentence; a section header occurs among the built lines exactly
when its bucket is non-empty; and each non-empty section renders a sorted
permutation of its bucket — ordered by (expiry date ascending with absence
as the minimum date, plate ascending, event type ascending) — one rendered
entry per line. -/
theorem format_summary_props :
    format_summary_lt [] [] = "Šiandien priminimų nėra."
      ∧ ∀ upcoming expired : List DeadlineRecord,
        (("Artėjantys (5 d., 1 d.):" ∈ summaryLines upcoming expired)
            ↔ upcoming ≠ [])
          ∧ (("Nebegalioja:" ∈ summaryLines upcoming expired) ↔ expired ≠ [])
          ∧ ∃ u e : List DeadlineRecord,
              u.Perm upcoming ∧ e.Perm expired
                ∧ u.Pairwise (fun a b => summarySortLe a b = true)
                ∧ e.Pairwise (fun a b => summarySortLe a b = true)
                ∧ summaryLines upcoming expired =
                    (if upcoming.isEmpty then [] else
                      "Artėjantys (5 d., 1 d.):" :: (u.map entryLineUp ++ [""]))
                    ++ (if expired.isEmpty then [] else
                      "Nebegalioja:" :: e.map entryLineEx) := by
  haveI : IsTrans DeadlineRecord (fun a b => summarySortLe a b = true) :=
    ⟨fun a b c => summarySortLe_trans a b c⟩
  haveI : IsTotal DeadlineRecord (fun a b => summarySortLe a b = true) :=
    ⟨fun a b => summarySortLe_total a b⟩
  refine ⟨rfl, fun up ex => ⟨?_, ?_, ?_⟩⟩
  · by_cases hu : up.isEmpty = true
    · have hnil : up = [] := by simpa using hu
      simp only [summaryLines, if_pos hu, List.nil_append]
      constructor
      · intro hmem
        exfalso
        by_cases hex : ex.isEmpty = true
        · rw [if_pos hex] at hmem
          simp at hmem
        · rw [if_neg hex] at hmem
          rcases List.mem_cons.mp hmem with h | h
          · exact absurd h (by decide)
          · exact str_not_mem_map_entryEx _ (by decide) _ h
      · intro hne
        exact absurd hnil hne
    · have hne : up ≠ [] := by simpa using hu
      simp only [summaryLines, if_neg hu]
      refine ⟨fun _ => hne, fun _ => ?_⟩
      exact List.mem_append.mpr (Or.inl (List.mem_cons_self _ _))
  · by_cases hex : ex.isEmpty = true
    · have hnil : ex = [] := by simpa using hex
      simp only [summaryLines, if_pos hex, List.append_nil]
      constructor
      · intro hmem
        exfalso
        by_cases hu : up.isEmpty = true
        · rw [if_pos hu] at hmem
          simp at hmem
        · rw [if_neg hu] at hmem
          rcases List.mem_cons.mp hmem with h | h
          · exact absurd h (by decide)
          · rcases List.mem_append.mp h with h2 | h2
            · exact str_not_mem_map_entryUp _ (by decide) _ h2
            · rw [List.mem_singleton] at h2
              exact absurd h2 (by decide)
      · intro hne
        exact absurd hnil hne
    · have hne : ex ≠ [] := by simpa using hex
      simp only [summaryLines, if_neg hex]
      refine ⟨fun _ => hne, fun _ => ?_⟩
      exact List.mem_append.mpr (Or.inr (List.mem_cons_self _ _))
  · exact ⟨summarySorted up, summarySorted ex,
      List.perm_insertionSort _ _, List.perm_insertionSort _ _,
      List.sorted_insertionSort _ up, List.sorted_insertionSort _ ex, rfl⟩

theorem pyJoin_append_nl (l : List String) (h : l ≠ []) :
    pyJoin "\n" (l ++ [""]) = pyJoin "\n" l ++ "\n" := by
  induction l with
  | nil => exact absurd rfl h
  | cons x rest ih =>
    cases rest with
    | nil => simp [pyJoin]
    | cons y t =>
      rw [List.cons_append]
      show x ++ "\n" ++ pyJoin "\n" ((y :: t) ++ [""])
        = (x ++ "\n" ++ pyJoin "\n" (y :: t)) ++ "\n"
      rw [ih (List.cons_ne_nil _ _), ← String.append_assoc]

/-- C10: when the upcoming bucket is non-empty, the built lines are the
upcoming header, the rendered upcoming entries, then one empty line
immediately after the last upcoming entry (before any expired section); in
particular when the expired bucket is empty the formatted text ends with a
trailing newline. -/
theorem format_upcoming_trailing_blank (upcoming expired : List DeadlineRecord)
    (h : upcoming ≠ []) :
    summaryLines upcoming expired =
        "Artėjantys (5 d., 1 d.):" ::
          ((summarySorted upcoming).map entryLineUp ++ [""]
            ++ (if expired.isEmpty then [] else
                  "Nebegalioja:" :: (summarySorted expired).map entryLineEx))
      ∧ (expired = [] →
          ∃ s, format_summary_lt upcoming expired = s ++ "\n") := by
  have hne : ¬upcoming.isEmpty = true := by simpa using h
  constructor
  · unfold summaryLines
    rw [if_neg hne, List.cons_append, List.append_assoc]
  · intro hex
    subst hex
    unfold format_summary_lt summaryLines
    rw [if_neg hne]
    simp only [List.isEmpty_nil, eq_self_iff_true, if_true, List.append_nil]
    rw [if_neg (by simp)]
    refine ⟨pyJoin "\n"
      ("Artėjantys (5 d., 1 d.):" :: (summarySorted upcoming).map entryLineUp), ?_⟩
    rw [show "Artėjantys (5 d., 1 d.):" ::
          ((summarySorted upcoming).map entryLineUp ++ [""])
        = ("Artėjantys (5 d., 1 d.):" ::
            (summarySorted upcoming).map entryLineUp) ++ [""] from by simp]
    exact pyJoin_append_nl _ (List.cons_ne_nil _ _)

/-- Witness for C10 at a concrete singleton upcoming bucket. -/
theorem format_upcoming_trailing_blank_witness :
    ([({ plate := "ABC123", event_type := "insurance",
          expiry_date := some ⟨2024, 6, 10⟩ } : DeadlineRecord)]
        ≠ ([] : List DeadlineRecord))
      ∧ ∃ s, format_summary_lt
          [{ plate := "ABC123", event_type := "insurance",
              expiry_date := some ⟨2024, 6, 10⟩ }] [] = s ++ "\n" :=
  ⟨List.cons_ne_nil _ _,
    (format_upcoming_trailing_blank _ [] (List.cons_ne_nil _ _)).2 rfl⟩

/-- C9: `parse_mmddyyyy` returns `None` on the empty string, otherwise tries
the month/day/4-digit-year format first and the month/day/2-digit-year
format second, returns the date from the first format that parses, and
returns `None` when no format parses.  It is a total function into
`Option` — the `ValueError`s of `strptime` are caught inside and never reach
the caller. -/
theorem parse_mmddyyyy_spec :
    parse_mmddyyyy "" = none
      ∧ ∀ (s : String) (d : PDate),
        (strptimeMDY4 s = some d → parse_mmddyyyy s = some d)
          ∧ (strptimeMDY4 s = none → strptimeMDY2 s = some d →
              parse_mmddyyyy s = some d)
          ∧ (strptimeMDY4 s = none → strptimeMDY2 s = none →
              parse_mmddyyyy s = none) := by
  refine ⟨rfl, fun s d => ⟨?_, ?_, ?_⟩⟩
  · intro h4
    by_cases hs : s = ""
    · subst hs
      rw [show strptimeMDY4 "" = none from by decide] at h4
      exact absurd h4 (by simp)
    · unfold parse_mmddyyyy
      rw [if_neg hs, h4]
  · intro h4 h2
    by_cases hs : s = ""
    · subst hs
      rw [show strptimeMDY2 "" = none from by decide] at h2
      exact absurd h2 (by simp)
    · unfold parse_mmddyyyy
      rw [if_neg hs, h4, h2]
  · intro h4 h2
    by_cases hs : s = ""
    · rw [hs]; rfl
    · unfold parse_mmddyyyy
      rw [if_neg hs, h4, h2]

/-- Witness for C9: the 4-digit-year format fails on `"1/2/24"`, the
2-digit-year fallback parses it as 2024-01-02. -/
theorem parse_mmddyyyy_spec_witness :
    strptimeMDY4 "1/2/24" = none
      ∧ strptimeMDY2 "1/2/24" = some ⟨2024, 1, 2⟩
      ∧ parse_mmddyyyy "1/2/24" = some ⟨2024, 1, 2⟩ :=
  ⟨by decide, by decide,
    (parse_mmddyyyy_spec.2 "1/2/24" ⟨2024, 1, 2⟩).2.1 (by decide) (by decide)⟩

/-- C4: for every stored state and sync input whose reconciliation is
non-empty, `update_vehicle_data_enhanced` raises `AttributeError` (from
reading `record.timestamp` off a `DeadlineRecord`, which has no such field)
before writing anything; it reaches its save step exactly when the
reconciled record list is empty. -/
theorem update_enhanced_attribute_error (st : Storage) (now : String)
    (vehicles_data : List (String × String × Option PDate × Option Nat × List String)) :
    (latest_by_plate_event (tuplesForLatest vehicles_data) ≠ [] →
        update_vehicle_data_enhanced st now vehicles_data
          = .error .attributeError)
      ∧ (latest_by_plate_event (tuplesForLatest vehicles_data) = [] →
          ∃ st' : Storage, update_vehicle_data_enhanced st now vehicles_data
            = .ok st') := by
  constructor
  · intro hne
    unfold update_vehicle_data_enhanced
    cases hl : latest_by_plate_event (tuplesForLatest vehicles_data) with
    | nil => exact absurd hl hne
    | cons r rest =>
      have hstep : ∀ acc, buildStep now acc r = .error .attributeError := by
        intro acc; rfl
      simp only [List.foldlM_cons, hstep]
      rfl
  · intro hnil
    unfold update_vehicle_data_enhanced
    rw [hnil]
    exact ⟨_, rfl⟩

/-- Witness for C4: a single-observation sync raises `AttributeError`. -/
theorem update_enhanced_attribute_error_witness :
    latest_by_plate_event
        (tuplesForLatest [("P", "insurance", none, none, [])]) ≠ []
      ∧ update_vehicle_data_enhanced ⟨none, []⟩ "2024-06-02T08:00:00"
          [("P", "insurance", none, none, [])] = .error .attributeError :=
  ⟨by decide,
    (update_enhanced_attribute_error ⟨none, []⟩ "2024-06-02T08:00:00"
      [("P", "insurance", none, none, [])]).1 (by decide)⟩

theorem dictGet_mergeVehicles_not_mem (rest : List (String × Vehicle))
    (data : List (String × Vehicle)) (plate : String)
    (h : plate ∉ dictKeys rest) :
    dictGet plate (mergeVehicles data rest) = dictGet plate data := by
  induction rest generalizing data with
  | nil => rfl
  | cons pv rest' ih =>
    simp only [dictKeys, List.map_cons, List.mem_cons, not_or] at h
    have hne : pv.1 ≠ plate := fun he => h.1 he.symm
    show dictGet plate (mergeVehicles (mergeStep data pv) rest')
      = dictGet plate data
    rw [ih (mergeStep data pv) (by simpa [dictKeys] using h.2)]
    unfold mergeStep
    exact dictGet_set_ne _ _ _ _ hne

/-- C7: for every plate of the newly built vehicles, the merge step stores
that plate's fresh entry — its `events` list and `last_seen` exactly as
built — while re-instating `excluded`, `excluded_at` and `excluded_by` from
the prior snapshot when one exists, and leaving the fresh entry untouched
(so `excluded` keeps its built default `false`) when none exists; the fresh
entry built by a sync has `excluded = false`, empty exclusion metadata and
`last_seen = now`. -/
theorem merge_preserves_exclusions (existing new_vehicles : List (String × Vehicle))
    (plate : String) (vd : Vehicle)
    (hnd : (dictKeys new_vehicles).Nodup)
    (hv : dictGet plate new_vehicles = some vd) :
    (∃ vd', dictGet plate (mergeVehicles existing new_vehicles) = some vd'
        ∧ vd'.events = vd.events
        ∧ vd'.last_seen = vd.last_seen
        ∧ (∀ ex, dictGet plate existing = some ex →
            vd'.excluded = ex.excluded ∧ vd'.excluded_at = ex.excluded_at
              ∧ vd'.excluded_by = ex.excluded_by)
        ∧ (dictGet plate existing = none → vd' = vd))
      ∧ ∀ now : String,
          (vehicleInit now).excluded = false
            ∧ (vehicleInit now).excluded_at = none
            ∧ (vehicleInit now).excluded_by = none
            ∧ (vehicleInit now).last_seen = now := by
  refine ⟨?_, fun now => ⟨rfl, rfl, rfl, rfl⟩⟩
  induction new_vehicles generalizing existing with
  | nil => simp [dictGet] at hv
  | cons pv rest ih =>
    obtain ⟨p1, v1⟩ := pv
    rw [dictKeys, List.map_cons, List.nodup_cons] at hnd
    by_cases hp : p1 = plate
    · have hvd : vd = v1 := by
        simp only [dictGet, if_pos hp] at hv
        exact (Option.some.inj hv).symm
      have hnotin : plate ∉ dictKeys rest := hp ▸ hnd.1
      show ∃ vd', dictGet plate (mergeVehicles (mergeStep existing (p1, v1)) rest)
        = some vd' ∧ _
      rw [dictGet_mergeVehicles_not_mem rest _ _ hnotin]
      unfold mergeStep
      cases hex : dictGet p1 existing with
      | none =>
        simp only [hex]
        refine ⟨v1, ?_, by rw [hvd], by rw [hvd], ?_, fun _ => hvd.symm⟩
        · rw [← hp]
          exact dictGet_set_self _ _ _
        · intro ex hsome
          rw [hp] at hex
          rw [hex] at hsome
          exact absurd hsome (by simp)
      | some ex0 =>
        simp only [hex]
        refine ⟨{ v1 with excluded := ex0.excluded, excluded_at := ex0.excluded_at, excluded_by := ex0.excluded_by },
          ?_, by rw [hvd], by rw [hvd], ?_, ?_⟩
        · rw [← hp]
          exact dictGet_set_self _ _ _
        · intro ex hsome
          rw [hp] at hex
          rw [hex] at hsome
          cases hsome
          exact ⟨rfl, rfl, rfl⟩
        · intro hnone
          rw [hp] at hex
          rw [hex] at hnone
          exact absurd hnone (by simp)
    · have hv' : dictGet plate rest = some vd := by
        simp only [dictGet, if_neg hp] at hv
        exact hv
      obtain ⟨vd', h1, h2, h3, h4, h5⟩ := ih (mergeStep existing (p1, v1)) hnd.2 hv'
      have heq : dictGet plate (mergeStep existing (p1, v1))
          = dictGet plate existing := by
        unfold mergeStep
        exact dictGet_set_ne _ _ _ _ hp
      rw [heq] at h4 h5
      exact ⟨vd', h1, h2, h3, h4, h5⟩

/-- Witness for C7 at a concrete pair of snapshot tables: the prior
exclusion data of plate `"AAA"` survives the merge while its events and
`last_seen` are replaced wholesale. -/
theorem merge_preserves_exclusions_witness :
    ∃ vd', dictGet "AAA" (mergeVehicles
          [("AAA", c7ExistingVehicle)]
          [("AAA", c7NewVehicle), ("BBB", vehicleInit "now")])
        = some vd'
      ∧ vd'.events = c7NewVehicle.events
      ∧ vd'.last_seen = c7NewVehicle.last_seen
      ∧ vd'.excluded = true
      ∧ vd'.excluded_at = some "2024-01-01T00:00:00"
      ∧ vd'.excluded_by = some "admin" := by
  obtain ⟨vd', h1, h2, h3, h4, _⟩ :=
    (merge_preserves_exclusions
      [("AAA", c7ExistingVehicle)]
      [("AAA", c7NewVehicle), ("BBB", vehicleInit "now")]
      "AAA" c7NewVehicle (by decide) rfl).1
  obtain ⟨he1, he2, he3⟩ := h4 c7ExistingVehicle rfl
  exact ⟨vd', h1, h2, h3, he1, he2, he3⟩

/-- C3 is violated by the code (demonstration at a concrete input): the
storage marks plate `"AAA111"` excluded, yet `send_daily_reminders` builds
the Window Classifier input straight from the spreadsheet tuples — the
excluded plate is present in that input and even lands in the upcoming
bucket; the prune half of the claim does hold: a sync whose input no longer
contains the excluded plate keeps its snapshot untouched. -/
theorem excluded_vehicle_reaches_classifier :
    ((dictGet "AAA111" c3Storage.vehicles).map Vehicle.excluded = some true)
      ∧ (∃ r ∈ send_daily_classifier_input
            [("AAA111", "insurance", some ⟨2024, 6, 10⟩, none)],
          r.plate = "AAA111")
      ∧ (∃ r ∈ (compute_windows ⟨2024, 6, 5⟩ (send_daily_classifier_input
            [("AAA111", "insurance", some ⟨2024, 6, 10⟩, none)])).1,
          r.plate = "AAA111")
      ∧ update_vehicle_data_enhanced c3Storage "2024-06-02T08:00:00" []
        = .ok ⟨some "2024-06-02T08:00:00", c3Storage.vehicles⟩ := by
  exact ⟨rfl, by decide, by decide, rfl⟩

end WarmyBot
